import Mathlib

/-!
Verification development for the ASF download integrity checker
(`main.py`).  The checker's pure decision logic is shallowly embedded
here: Python string manipulation is translated to functions on
`List Char` / `String`, file-system access is abstracted into records
(an artifact carries its sidecar contents and a digest oracle), and the
external gnupg collaborator is abstracted into the result record its
`verify_file` call returns plus a fingerprint-keyed key store.
-/

namespace Checker

/-- Python ASCII whitespace, as recognised by `str.strip` / `str.split`
(space, tab, newline, carriage return, vertical tab, form feed). -/
def pyWS (c : Char) : Bool :=
  c = ' ' || c = '\t' || c = '\n' || c = '\r' || c = '\x0b' || c = '\x0c'

/-- Python `str.strip()` on a list of characters: drop whitespace from
both ends. -/
def pyStripL (l : List Char) : List Char :=
  ((l.dropWhile pyWS).reverse.dropWhile pyWS).reverse

/-- Membership test against Python's `string.hexdigits`
(`0123456789abcdefABCDEF`). -/
def pyIsHexDigit (c : Char) : Bool :=
  c.isDigit || ('a' ≤ c && c ≤ 'f') || ('A' ≤ c && c ≤ 'F')

/-- Python `str.lower()` restricted to ASCII, which is all the checker
ever feeds it (hex digits and file names). -/
def pyLowerL (l : List Char) : List Char := l.map Char.toLower

/-- `str.lower()` on a `String`. -/
def pyLowerStr (s : String) : String := String.mk (pyLowerL s.toList)

/-- Python `str.split(sep)` for a one-character separator: split at every
occurrence of the separator, keeping empty pieces; `"".split(sep)`
yields `[""]`. -/
def pySplitChar (sep : Char) : List Char → List (List Char)
  | [] => [[]]
  | c :: cs =>
    if c = sep then [] :: pySplitChar sep cs
    else
      match pySplitChar sep cs with
      | [] => [[c]]
      | t :: ts => (c :: t) :: ts

/-- Helper for Python's no-argument `str.split()`: accumulate the current
token (reversed) and emit maximal runs of non-whitespace characters. -/
def pySplitWsAux : List Char → List Char → List (List Char)
  | acc, [] => if acc.isEmpty then [] else [acc.reverse]
  | acc, c :: cs =>
    if pyWS c then
      if acc.isEmpty then pySplitWsAux [] cs
      else acc.reverse :: pySplitWsAux [] cs
    else pySplitWsAux (c :: acc) cs

/-- Python `str.split()` with no argument: the maximal whitespace-free
tokens, empties dropped.  Used only to state the specification's
"split on whitespace" reading of the sidecar format. -/
def pySplitWs (l : List Char) : List (List Char) := pySplitWsAux [] l

/-- The expected digest the checker extracts from a sidecar file's text
(`main.py` line 100-101):
`open(...).read().strip().split(" ")`, keep each token whose stripped
form consists solely of hex digits, join the stripped tokens, lower-case
the result. -/
def checksum_on_disk (content : String) : String :=
  String.mk (pyLowerL (((pySplitChar ' ' (pyStripL content.toList)).filter
    (fun x => (pyStripL x).all pyIsHexDigit)).map pyStripL).flatten)

/-- Modelled from the spec: the expected digest as §4.2 words it —
"split on whitespace, keep only tokens composed entirely of hexadecimal
characters, concatenate and lower-case them".  Stated only to be
compared against `checksum_on_disk`, the digest the code computes. -/
def specExpectedDigest (content : String) : String :=
  String.mk (pyLowerL ((pySplitWs content.toList).filter (fun x => x.all pyIsHexDigit)).flatten)

/-- First error line of a checksum mismatch (`main.py` line 105). -/
def chkMismatchMsg (checksum_filename : String) : String :=
  "Checksum does not match checksum file " ++ checksum_filename ++ "!"

/-- Second error line: the digest computed from the artifact bytes
(`main.py` line 106). -/
def chkCalculatedMsg (method filename computed : String) : String :=
  "Calculated " ++ method ++ " checksum of " ++ filename ++ " was: " ++ computed

/-- Third error line: the digest declared by the sidecar
(`main.py` line 107). -/
def chkDeclaredMsg (checksum_filename declared : String) : String :=
  "Checksum file " ++ checksum_filename ++ " said it should have been: " ++ declared

/-- `verify_checksum(filepath, method)` (`main.py` lines 95-108), with the
file reads factored out: `filename` is the artifact's base name,
`content` the sidecar text, `computed` the digest the Digest Engine
returns for the artifact.  Returns the (possibly empty) error list. -/
def verify_checksum (filename method content computed : String) : List String :=
  if checksum_on_disk content ≠ computed then
    [chkMismatchMsg (filename ++ "." ++ method),
     chkCalculatedMsg method filename computed,
     chkDeclaredMsg (filename ++ "." ++ method) (checksum_on_disk content)]
  else []

/-- The result record returned by the external gnupg collaborator's
`keychain.verify_file` call, per the interface contract: validity flag,
reported signer fingerprint, claimed signing timestamp (epoch seconds,
already through `int(...)`), and a human-readable status string. -/
structure SigResult where
  valid : Bool
  fingerprint : String
  sig_timestamp : Int
  status : String
deriving DecidableEq

/-- One key of the per-project trust store, as listed by
`keychain.list_keys()`: fingerprint, expiry epoch (through
`int(fp["expires"])`; the spec's interface contract reads absent as 0),
and the user-identity strings (`uids`). -/
structure KeyRecord where
  fingerprint : String
  expires : Int
  uids : List String
deriving DecidableEq

/-- One artifact of a scan, with the file system and the external
collaborators it touches abstracted in:
* `filename` — the base name (`os.path.basename`);
* `mtime` — `os.stat(filepath).st_mtime` in epoch seconds;
* `sidecar m` — the text of `filepath + "." + m` when that file exists;
* `digestOf m` — what `digest(filepath, m)` returns (hashlib's
  lower-case hex digest of the artifact bytes);
* `asc` — `some r` when `filepath + ".asc"` exists and verifying it
  through the keychain yields `r`, `none` when the sidecar is absent. -/
structure Artifact where
  filename : String
  mtime : Int
  sidecar : String → Option String
  digestOf : String → String
  asc : Option SigResult

/-- The configuration fields `verify_files` reads from `checker.yaml`.
`strong_checksum_deadline` is `CFG.get("strong_checksum_deadline", 0)`,
so an absent key is already the value 0 here. -/
structure Config where
  known_extensions : List String
  strong_checksums : List String
  weak_checksums : List String
  strong_checksum_deadline : Int

/-- `extension = filename.split(".")[-1] if "." in filename else ""`
(`main.py` line 131). -/
def fileExtension (filename : String) : String :=
  if filename.toList.contains '.' then
    String.mk ((pySplitChar '.' filename.toList).getLastD [])
  else ""

/-- `if extension in known_exts` (`main.py` line 132): a file is selected
for verification when its extension is in the allow-list. -/
def selected (cfg : Config) (filename : String) : Bool :=
  cfg.known_extensions.contains (fileExtension filename)

/-- Error pushed when an old artifact ends the weak fallback with no
valid checksum (`main.py` line 160). -/
def weakMsg (filename : String) : String :=
  "No valid checksum files (.md5, .sha1, .sha256, .sha512) found for " ++ filename

/-- Error pushed when strong checksums are enforced and none was valid
(`main.py` line 164). -/
def strongMsg (filename : String) : String :=
  "No valid checksum files (.sha256, .sha512) found for " ++ filename

/-- Error for a signature by a fingerprint missing from the project's
KEYS (`main.py` line 172). -/
def sigNotInKeysMsg (filename fingerprint : String) : String :=
  "The signature file " ++ filename ++
    " was signed with a fingerprint not found in the project's KEYS file: " ++ fingerprint

/-- Error for a signature made after its key's recorded expiry
(`main.py` line 179). -/
def sigExpiredMsg (filename owner fingerprint : String) : String :=
  "Detached signature file " ++ filename ++ ".asc was signed by " ++ owner ++
    " (" ++ fingerprint ++ ") but the key has expired!"

/-- Catch-all error carrying the gnupg status verbatim
(`main.py` line 182). -/
def sigStatusMsg (filename status : String) : String :=
  "Detached signature file " ++ filename ++ ".asc could not be used to verify " ++
    filename ++ ": " ++ status

/-- One iteration of the checksum loops (`main.py` lines 139-145 and
152-157 share this exact shape): if the sidecar for `method` exists,
verify it; a failing verification appends its errors, a passing one
increments the valid count. -/
def chkStep (a : Artifact) (st : Nat × List String) (method : String) : Nat × List String :=
  match a.sidecar method with
  | none => st
  | some content =>
    if verify_checksum a.filename method content (a.digestOf method) = [] then
      (st.1 + 1, st.2)
    else (st.1, st.2 ++ verify_checksum a.filename method content (a.digestOf method))

/-- The strong-checksum loop (`main.py` lines 138-145). -/
def strongPhase (cfg : Config) (a : Artifact) : Nat × List String :=
  cfg.strong_checksums.foldl (chkStep a) (0, [])

/-- The value Python's loop variables `method` / `chkfile` hold at
`main.py` line 152.  The body of the weak loop (line 150-151) is only
the assignment `chkfile = filepath + "." + method`, so after it both
variables name the *last* weak algorithm; when the weak list is empty
they still hold the last strong algorithm (set at line 138-139), and
when both lists are empty they are unbound (a NameError at line 152). -/
def lastMethodAfterWeak (cfg : Config) : Option String :=
  match cfg.weak_checksums.getLast? with
  | some m => some m
  | none => cfg.strong_checksums.getLast?

/-- The legacy fallback branch (`main.py` lines 148-160), entered when no
strong checksum was valid and the artifact predates the deadline.
`none` models the NameError raised when `chkfile` was never bound. -/
def fallbackPhase (cfg : Config) (a : Artifact) (st : Nat × List String) :
    Option (Nat × List String) :=
  match lastMethodAfterWeak cfg with
  | none => none
  | some method =>
    if (chkStep a st method).1 = 0 then
      some ((chkStep a st method).1, (chkStep a st method).2 ++ [weakMsg a.filename])
    else some (chkStep a st method)

/-- The whole checksum part of the per-artifact body
(`main.py` lines 136-164), returning the final valid-checksum count and
the accumulated error lines in push order. -/
def checksumPhase (cfg : Config) (a : Artifact) : Option (Nat × List String) :=
  if (strongPhase cfg a).1 = 0 ∧ a.mtime ≤ cfg.strong_checksum_deadline then
    fallbackPhase cfg a (strongPhase cfg a)
  else if (strongPhase cfg a).1 = 0 then
    some ((strongPhase cfg a).1, (strongPhase cfg a).2 ++ [strongMsg a.filename])
  else
    some (strongPhase cfg a)

/-- The detached-signature part of the per-artifact body
(`main.py` lines 166-182).  `known` is the `known_fingerprints` lookup
built at line 127.  `none` models the IndexError of `fp["uids"][0]` on a
key with no uids. -/
def sigPhase (known : String → Option KeyRecord) (a : Artifact) : Option (List String) :=
  match a.asc with
  | none => some []
  | some verified =>
    if verified.valid then some []
    else
      match known verified.fingerprint with
      | none => some [sigNotInKeysMsg a.filename verified.fingerprint]
      | some fp =>
        if fp.expires < verified.sig_timestamp then
          match fp.uids with
          | [] => none
          | fp_owner :: _ =>
            some [sigExpiredMsg a.filename fp_owner verified.fingerprint]
        else if verified.status ≠ "signature valid" then
          some [sigStatusMsg a.filename verified.status]
        else some []

/-- The full per-artifact loop body of `verify_files`
(`main.py` lines 136-182): checksum phase, then signature phase; all
error pushes for one artifact target its own path, so the body is
equivalent to computing the concatenated error list. -/
def verifyArtifact (cfg : Config) (known : String → Option KeyRecord) (a : Artifact) :
    Option (Nat × List String) :=
  match checksumPhase cfg a with
  | none => none
  | some st =>
    match sigPhase known a with
    | none => none
    | some ses => some (st.1, st.2 ++ ses)

/-- The `errors` dict of `verify_files`: an insertion-ordered map from
file path to its accumulated error lines (Python dicts preserve
insertion order). -/
abbrev Report := List (String × List String)

/-- `push_error` (`main.py` lines 111-118) applied to a list of
messages: extend an existing entry or append a new one. -/
def push_error : Report → String → List String → Report
  | [], p, msgs => [(p, msgs)]
  | (q, l) :: rest, p, msgs =>
    if q = p then (q, l ++ msgs) :: rest else (q, l) :: push_error rest p msgs

/-- Dict lookup in a `Report`. -/
def lookupRep : Report → String → Option (List String)
  | [], _ => none
  | (q, l) :: rest, p => if q = p then some l else lookupRep rest p

/-- Lookup defaulting to the empty error list. -/
def lookupD (rep : Report) (p : String) : List String := (lookupRep rep p).getD []

/-- The file loop of `verify_files` (`main.py` lines 129-182) over an
already-enumerated list of (path, artifact) pairs (the sorted `os.walk`
order); files whose extension is not allow-listed are skipped. -/
def verify_files_go (cfg : Config) (known : String → Option KeyRecord) :
    Report → List (String × Artifact) → Option Report
  | rep, [] => some rep
  | rep, (p, a) :: rest =>
    if selected cfg a.filename then
      match verifyArtifact cfg known a with
      | none => none
      | some st =>
        verify_files_go cfg known (if st.2 = [] then rep else push_error rep p st.2) rest
    else verify_files_go cfg known rep rest

/-- `verify_files(project, keychain)` (`main.py` lines 121-183), starting
from the empty error dict. -/
def verify_files (cfg : Config) (known : String → Option KeyRecord)
    (files : List (String × Artifact)) : Option Report :=
  verify_files_go cfg known [] files

/-- Modelled from the spec: `keychain.import_keys` of the external gnupg
collaborator, whose §4.3 contract makes re-import idempotent and keys
the store by fingerprint — material is inserted unless its fingerprint
is already present. -/
def import_keys (st : List KeyRecord) (material : List KeyRecord) : List KeyRecord :=
  material.foldl
    (fun s k => if s.any (fun k2 => k2.fingerprint = k.fingerprint) then s else s ++ [k]) st

/-- `load_keys(project)` (`main.py` lines 68-83) over an enumerated
project tree of (file name, parsed key material) pairs.  `diskStore` is
the content of the project's persistent GPG home directory when the
pass starts: `gnupg.GPG(gnupghome=...)` opens that directory, which
`main.py` creates once (line 73-74) and never clears, so keys imported
by earlier passes are still in it.  Every file literally named `KEYS`
or `KEYS.txt` is imported. -/
def load_keys (diskStore : List KeyRecord)
    (tree : List (String × List KeyRecord)) : List KeyRecord :=
  tree.foldl
    (fun st file =>
      if file.1 = "KEYS" ∨ file.1 = "KEYS.txt" then import_keys st file.2 else st)
    diskStore

/-- `known_fingerprints = {key["fingerprint"]: key for key in
keychain.list_keys()}` (`main.py` line 127) as a lookup function; with
the fingerprint-unique store `import_keys` maintains, the dict and this
first-match search agree. -/
def known_fingerprints (st : List KeyRecord) (fp : String) : Option KeyRecord :=
  st.find? (fun k => k.fingerprint = fp)

/-- The trust store holds a key with the given fingerprint. -/
def FpIn (st : List KeyRecord) (fp : String) : Prop := ∃ k ∈ st, k.fingerprint = fp

/-! ### Helper lemmas about the Python string primitives -/

theorem pySplitChar_ne_nil (sep : Char) (l : List Char) : pySplitChar sep l ≠ [] := by
  induction l with
  | nil => simp [pySplitChar]
  | cons c cs ih =>
    rw [pySplitChar]
    split
    · simp
    · cases h : pySplitChar sep cs with
      | nil => simp
      | cons t ts => simp

theorem mem_of_mem_pySplitChar {sep : Char} {l x : List Char} {c : Char}
    (hx : x ∈ pySplitChar sep l) (hc : c ∈ x) : c ∈ l := by
  induction l generalizing x with
  | nil =>
    simp [pySplitChar] at hx
    subst hx
    exact absurd hc (List.not_mem_nil c)
  | cons a as ih =>
    rw [pySplitChar] at hx
    by_cases ha : a = sep
    · rw [if_pos ha] at hx
      rcases List.mem_cons.mp hx with h | h
      · subst h; exact absurd hc (List.not_mem_nil c)
      · exact List.mem_cons_of_mem a (ih h hc)
    · rw [if_neg ha] at hx
      cases h : pySplitChar sep as with
      | nil => exact absurd h (pySplitChar_ne_nil sep as)
      | cons t ts =>
        rw [h] at hx
        rcases List.mem_cons.mp hx with h1 | h1
        · subst h1
          rcases List.mem_cons.mp hc with h2 | h2
          · subst h2; exact List.mem_cons_self c as
          · exact List.mem_cons_of_mem a (ih (h ▸ List.mem_cons_self t ts) h2)
        · exact List.mem_cons_of_mem a (ih (h ▸ List.mem_cons_of_mem t h1) hc)

theorem sep_not_mem_of_mem_pySplitChar {sep : Char} {l x : List Char}
    (hx : x ∈ pySplitChar sep l) : sep ∉ x := by
  induction l generalizing x with
  | nil =>
    simp [pySplitChar] at hx
    subst hx
    exact List.not_mem_nil sep
  | cons a as ih =>
    rw [pySplitChar] at hx
    by_cases ha : a = sep
    · rw [if_pos ha] at hx
      rcases List.mem_cons.mp hx with h | h
      · subst h; exact List.not_mem_nil sep
      · exact ih h
    · rw [if_neg ha] at hx
      cases h : pySplitChar sep as with
      | nil => exact absurd h (pySplitChar_ne_nil sep as)
      | cons t ts =>
        rw [h] at hx
        rcases List.mem_cons.mp hx with h1 | h1
        · subst h1
          intro hmem
          rcases List.mem_cons.mp hmem with h2 | h2
          · exact ha h2.symm
          · exact ih (h ▸ List.mem_cons_self t ts) h2
        · exact ih (h ▸ List.mem_cons_of_mem t h1)

theorem dropWhile_eq_self_of_none {p : Char → Bool} {l : List Char}
    (h : ∀ c ∈ l, p c = false) : l.dropWhile p = l := by
  cases l with
  | nil => rfl
  | cons c cs => simp [List.dropWhile, h c (List.mem_cons_self c cs)]

theorem pyStripL_eq_self {l : List Char} (h : ∀ c ∈ l, pyWS c = false) :
    pyStripL l = l := by
  unfold pyStripL
  rw [dropWhile_eq_self_of_none h]
  rw [dropWhile_eq_self_of_none (fun c hc => h c (List.mem_reverse.mp hc))]
  exact List.reverse_reverse l

theorem mem_of_mem_pyStripL {l : List Char} {c : Char} (h : c ∈ pyStripL l) : c ∈ l := by
  unfold pyStripL at h
  have h1 := List.mem_reverse.mp h
  have h2 := (List.dropWhile_sublist (l := (l.dropWhile pyWS).reverse) pyWS).subset h1
  exact (List.dropWhile_sublist pyWS).subset (List.mem_reverse.mp h2)

theorem pySplitWsAux_all_ws {w : List Char} (h : ∀ c ∈ w, pyWS c = true) :
    ∀ acc, pySplitWsAux acc w = if acc.isEmpty then [] else [acc.reverse] := by
  induction w with
  | nil => intro acc; rfl
  | cons c cs ih =>
    intro acc
    rw [pySplitWsAux, if_pos (h c (List.mem_cons_self c cs))]
    have ihcs := ih (fun x hx => h x (List.mem_cons_of_mem c hx))
    by_cases hacc : acc.isEmpty
    · rw [if_pos hacc, if_pos hacc, ihcs []]
      rfl
    · simp only [if_neg hacc]
      rw [ihcs []]
      rfl

theorem pySplitWsAux_append_ws {w : List Char} (hw : ∀ c ∈ w, pyWS c = true) :
    ∀ m acc, pySplitWsAux acc (m ++ w) = pySplitWsAux acc m := by
  intro m
  induction m with
  | nil =>
    intro acc
    rw [List.nil_append, pySplitWsAux_all_ws hw acc]
    rfl
  | cons c cs ih =>
    intro acc
    rw [List.cons_append, pySplitWsAux, pySplitWsAux]
    by_cases hc : pyWS c
    · rw [if_pos hc, if_pos hc]
      by_cases hacc : acc.isEmpty
      · rw [if_pos hacc, if_pos hacc, ih []]
      · rw [if_neg hacc, if_neg hacc, ih []]
    · rw [if_neg hc, if_neg hc, ih (c :: acc)]

theorem pySplitWsAux_dropWhile (l : List Char) :
    pySplitWsAux [] l = pySplitWsAux [] (l.dropWhile pyWS) := by
  induction l with
  | nil => rfl
  | cons c cs ih =>
    by_cases hc : pyWS c
    · rw [pySplitWsAux, if_pos hc, List.dropWhile, hc]
      exact ih
    · have hc' : pyWS c = false := by simpa using hc
      simp only [List.dropWhile, hc']

theorem all_ws_takeWhile {l : List Char} : ∀ c ∈ l.takeWhile pyWS, pyWS c = true := by
  intro c hc
  exact List.mem_takeWhile_imp hc

theorem pySplitWs_pyStripL (l : List Char) : pySplitWs (pyStripL l) = pySplitWs l := by
  unfold pySplitWs
  have hdec : l.dropWhile pyWS =
      pyStripL l ++ ((l.dropWhile pyWS).reverse.takeWhile pyWS).reverse := by
    unfold pyStripL
    conv_lhs => rw [← List.reverse_reverse (l.dropWhile pyWS)]
    conv_lhs => rw [← List.takeWhile_append_dropWhile (p := pyWS) (l := (l.dropWhile pyWS).reverse)]
    rw [List.reverse_append]
  have hwsw : ∀ c ∈ ((l.dropWhile pyWS).reverse.takeWhile pyWS).reverse, pyWS c = true := by
    intro c hc
    exact List.mem_takeWhile_imp (List.mem_reverse.mp hc)
  rw [pySplitWsAux_dropWhile l, hdec, pySplitWsAux_append_ws hwsw (pyStripL l) []]

theorem pySplitWsAux_bridge (l : List Char) :
    ∀ (acc t : List Char) (ts : List (List Char)),
    (∀ c ∈ l, pyWS c = true → c = ' ') →
    pySplitChar ' ' l = t :: ts →
    pySplitWsAux acc l = ((acc.reverse ++ t) :: ts).filter (fun x => !x.isEmpty) := by
  induction l with
  | nil =>
    intro acc t ts _ hsplit
    rw [pySplitChar] at hsplit
    injection hsplit with h1 h2
    subst h1
    subst h2
    cases acc with
    | nil => rfl
    | cons a as =>
      have hne : ((a :: as).reverse).isEmpty = false := by simp [List.isEmpty_iff]
      simp [pySplitWsAux, List.filter_cons, hne]
  | cons c cs ih =>
    intro acc t ts hws hsplit
    have hws' : ∀ x ∈ cs, pyWS x = true → x = ' ' :=
      fun x hx => hws x (List.mem_cons_of_mem c hx)
    obtain ⟨t', ts', h'⟩ : ∃ t' ts', pySplitChar ' ' cs = t' :: ts' := by
      cases h : pySplitChar ' ' cs with
      | nil => exact absurd h (pySplitChar_ne_nil ' ' cs)
      | cons a b => exact ⟨a, b, rfl⟩
    by_cases hsp : c = ' '
    · subst hsp
      have hsplit' : pySplitChar ' ' (' ' :: cs) = [] :: pySplitChar ' ' cs := by
        rw [pySplitChar, if_pos rfl]
      rw [hsplit'] at hsplit
      injection hsplit with h1 h2
      subst h1
      subst h2
      rw [pySplitWsAux, if_pos (by decide : pyWS ' ' = true)]
      by_cases hacc : acc.isEmpty
      · obtain rfl : acc = [] := List.isEmpty_iff.mp hacc
        rw [if_pos (show ([] : List Char).isEmpty = true from rfl), ih [] t' ts' hws' h', h']
        simp [List.filter_cons]
      · rw [if_neg hacc, ih [] t' ts' hws' h', h']
        have hacc' : acc ≠ [] := by simpa [List.isEmpty_iff] using hacc
        simp [List.filter_cons, hacc']
    · have hwsc : pyWS c = false := by
        cases hq : pyWS c with
        | false => rfl
        | true => exact absurd (hws c (List.mem_cons_self c cs) hq) hsp
      have hsplit' : pySplitChar ' ' (c :: cs) = (c :: t') :: ts' := by
        rw [pySplitChar, if_neg hsp, h']
      rw [hsplit'] at hsplit
      injection hsplit with h1 h2
      subst h1
      subst h2
      rw [pySplitWsAux, if_neg (by simp [hwsc]), ih (c :: acc) t' ts' hws' h']
      have harr : (c :: acc).reverse ++ t' = acc.reverse ++ (c :: t') := by
        rw [List.reverse_cons, List.append_assoc, List.singleton_append]
      rw [harr]

theorem flatten_filter_drop_empty (comps : List (List Char)) :
    (((comps.filter (fun x => !x.isEmpty)).filter (fun x => x.all pyIsHexDigit)).flatten :
      List Char) =
    ((comps.filter (fun x => x.all pyIsHexDigit)).flatten : List Char) := by
  induction comps with
  | nil => rfl
  | cons x xs ih =>
    cases x with
    | nil => simpa [List.filter] using ih
    | cons a as =>
      by_cases hx : (a :: as).all pyIsHexDigit
      · simp only [List.filter, List.isEmpty_cons, Bool.not_false, hx, List.flatten_cons]
        rw [ih]
      · have hx' : (a :: as).all pyIsHexDigit = false := by simpa using hx
        simp only [List.filter, List.isEmpty_cons, Bool.not_false, hx']
        exact ih

theorem tokens_no_ws {S x : List Char} (hwsS : ∀ c ∈ S, pyWS c = true → c = ' ')
    (hx : x ∈ pySplitChar ' ' S) : ∀ c ∈ x, pyWS c = false := by
  intro c hc
  cases hq : pyWS c with
  | false => rfl
  | true =>
    have hc' : c = ' ' := hwsS c (mem_of_mem_pySplitChar hx hc) hq
    subst hc'
    exact absurd hc (sep_not_mem_of_mem_pySplitChar hx)

/-- On sidecar texts whose only whitespace is the space character, the
digest the code extracts coincides with the spec's split-on-whitespace
description. -/
theorem checksum_on_disk_eq_spec {content : String}
    (hws : ∀ c ∈ content.toList, pyWS c = true → c = ' ') :
    checksum_on_disk content = specExpectedDigest content := by
  unfold checksum_on_disk specExpectedDigest
  have hwsS : ∀ c ∈ pyStripL content.toList, pyWS c = true → c = ' ' :=
    fun c hc => hws c (mem_of_mem_pyStripL hc)
  have hstrip : ∀ x ∈ pySplitChar ' ' (pyStripL content.toList), pyStripL x = x :=
    fun x hx => pyStripL_eq_self (tokens_no_ws hwsS hx)
  have hfilter :
      (pySplitChar ' ' (pyStripL content.toList)).filter
        (fun x => (pyStripL x).all pyIsHexDigit) =
      (pySplitChar ' ' (pyStripL content.toList)).filter (fun x => x.all pyIsHexDigit) := by
    apply List.filter_congr
    intro x hx
    rw [hstrip x hx]
  have hmap :
      ((pySplitChar ' ' (pyStripL content.toList)).filter
        (fun x => x.all pyIsHexDigit)).map pyStripL =
      (pySplitChar ' ' (pyStripL content.toList)).filter (fun x => x.all pyIsHexDigit) := by
    have := List.map_congr_left (l := (pySplitChar ' ' (pyStripL content.toList)).filter
        (fun x => x.all pyIsHexDigit)) (f := pyStripL) (g := id)
      (fun x hx => hstrip x (List.mem_of_mem_filter hx))
    rw [this, List.map_id]
  have hspec : pySplitWs content.toList =
      (pySplitChar ' ' (pyStripL content.toList)).filter (fun x => !x.isEmpty) := by
    rw [← pySplitWs_pyStripL]
    unfold pySplitWs
    obtain ⟨t, ts, h'⟩ : ∃ t ts, pySplitChar ' ' (pyStripL content.toList) = t :: ts := by
      cases h : pySplitChar ' ' (pyStripL content.toList) with
      | nil => exact absurd h (pySplitChar_ne_nil ' ' _)
      | cons a b => exact ⟨a, b, rfl⟩
    rw [pySplitWsAux_bridge _ [] t ts hwsS h', h']
    simp
  rw [hfilter, hmap, hspec, flatten_filter_drop_empty]

/-! ### Helper lemmas about extension selection -/

theorem dot_not_mem_fileExtension (f : String) : '.' ∉ (fileExtension f).toList := by
  unfold fileExtension
  split
  · show '.' ∉ (pySplitChar '.' f.toList).getLastD []
    have hmem : (pySplitChar '.' f.toList).getLastD [] ∈ pySplitChar '.' f.toList := by
      cases hsp : pySplitChar '.' f.toList with
      | nil => exact absurd hsp (pySplitChar_ne_nil _ _)
      | cons t ts =>
        rw [List.getLastD_cons]
        exact List.getLastD_mem_cons ts t
    exact sep_not_mem_of_mem_pySplitChar hmem
  · simp

/-! ### Helper lemmas about the error report -/

theorem lookupRep_push_self (rep : Report) (p : String) (es : List String) :
    lookupRep (push_error rep p es) p = some (lookupD rep p ++ es) := by
  induction rep with
  | nil => simp [push_error, lookupRep, lookupD]
  | cons e rest ih =>
    obtain ⟨q, l⟩ := e
    by_cases hq : q = p
    · subst hq
      simp [push_error, lookupRep, lookupD]
    · simp [push_error, lookupRep, hq, ih, lookupD]

theorem lookupRep_push_other {q p : String} (h : q ≠ p) (rep : Report) (es : List String) :
    lookupRep (push_error rep q es) p = lookupRep rep p := by
  induction rep with
  | nil => simp [push_error, lookupRep, h]
  | cons e rest ih =>
    obtain ⟨q', l⟩ := e
    by_cases hq : q' = q
    · subst hq
      simp [push_error, lookupRep, h]
    · simp [push_error, lookupRep, hq, ih]

theorem mem_lookupD_push {m : String} {rep : Report} {p : String} (q : String)
    (es : List String) (h : m ∈ lookupD rep p) : m ∈ lookupD (push_error rep q es) p := by
  by_cases hq : q = p
  · subst hq
    rw [lookupD, lookupRep_push_self]
    exact List.mem_append_left es h
  · rw [lookupD, lookupRep_push_other hq]
    exact h

theorem mem_lookupD_go {cfg : Config} {known : String → Option KeyRecord} :
    ∀ (rest : List (String × Artifact)) (rep rep' : Report) (p m : String),
    verify_files_go cfg known rep rest = some rep' → m ∈ lookupD rep p → m ∈ lookupD rep' p := by
  intro rest
  induction rest with
  | nil =>
    intro rep rep' p m h hm
    rw [verify_files_go] at h
    injection h with h
    exact h ▸ hm
  | cons x xs ih =>
    obtain ⟨q, a⟩ := x
    intro rep rep' p m h hm
    rw [verify_files_go] at h
    by_cases hsel : selected cfg a.filename = true
    · rw [if_pos hsel] at h
      cases hva : verifyArtifact cfg known a with
      | none =>
        rw [hva] at h
        exact absurd h (by simp)
      | some st =>
        rw [hva] at h
        apply ih _ _ p m h
        by_cases hst : st.2 = []
        · rw [if_pos hst]
          exact hm
        · rw [if_neg hst]
          exact mem_lookupD_push q st.2 hm
    · rw [if_neg hsel] at h
      exact ih _ _ p m h hm

/-! ### Helper lemmas about the checksum phases -/

theorem checksumPhase_zero_mem {cfg : Config} {a : Artifact} {ces : List String}
    (h : checksumPhase cfg a = some (0, ces)) :
    weakMsg a.filename ∈ ces ∨ strongMsg a.filename ∈ ces := by
  unfold checksumPhase at h
  by_cases h1 : (strongPhase cfg a).1 = 0 ∧ a.mtime ≤ cfg.strong_checksum_deadline
  · rw [if_pos h1] at h
    unfold fallbackPhase at h
    cases hm : lastMethodAfterWeak cfg with
    | none =>
      rw [hm] at h
      exact absurd h (by simp)
    | some mth =>
      rw [hm] at h
      dsimp only at h
      by_cases h2 : (chkStep a (strongPhase cfg a) mth).1 = 0
      · rw [if_pos h2] at h
        injection h with h
        rw [Prod.mk.injEq] at h
        left
        rw [← h.2]
        exact List.mem_append_right _ (List.mem_singleton.mpr rfl)
      · rw [if_neg h2] at h
        injection h with h
        rw [Prod.mk.injEq] at h
        exact absurd h.1 h2
  · rw [if_neg h1] at h
    by_cases h2 : (strongPhase cfg a).1 = 0
    · rw [if_pos h2] at h
      injection h with h
      rw [Prod.mk.injEq] at h
      right
      rw [← h.2]
      exact List.mem_append_right _ (List.mem_singleton.mpr rfl)
    · rw [if_neg h2] at h
      injection h with h
      rw [Prod.mk.injEq] at h
      exact absurd h.1 h2

theorem verifyArtifact_zero_mem {cfg : Config} {known : String → Option KeyRecord}
    {a : Artifact} {es : List String} (h : verifyArtifact cfg known a = some (0, es)) :
    weakMsg a.filename ∈ es ∨ strongMsg a.filename ∈ es := by
  unfold verifyArtifact at h
  cases hc : checksumPhase cfg a with
  | none =>
    rw [hc] at h
    exact absurd h (by simp)
  | some st =>
    rw [hc] at h
    cases hs : sigPhase known a with
    | none =>
      rw [hs] at h
      exact absurd h (by simp)
    | some ses =>
      rw [hs] at h
      injection h with h
      rw [Prod.mk.injEq] at h
      have h1 : st.1 = 0 := h.1
      have h2 : st.2 ++ ses = es := h.2
      have hst : st = (0, st.2) := by
        rw [← h1]
      have := checksumPhase_zero_mem
        (show checksumPhase cfg a = some (0, st.2) by rw [hc, hst])
      rcases this with hl | hr
      · exact Or.inl (h2 ▸ List.mem_append_left ses hl)
      · exact Or.inr (h2 ▸ List.mem_append_left ses hr)

/-! ### Helper lemmas about the key store -/

theorem FpIn_import_keys_mono (mat : List KeyRecord) :
    ∀ st fp, FpIn st fp → FpIn (import_keys st mat) fp := by
  induction mat with
  | nil =>
    intro st fp h
    exact h
  | cons k0 rest ih =>
    intro st fp h
    rw [show import_keys st (k0 :: rest) =
        import_keys (if st.any (fun k2 => k2.fingerprint = k0.fingerprint) then st
                     else st ++ [k0]) rest from rfl]
    by_cases hany : st.any (fun k2 => k2.fingerprint = k0.fingerprint) = true
    · rw [if_pos hany]
      exact ih _ _ h
    · rw [if_neg hany]
      obtain ⟨k, hk, hfp⟩ := h
      exact ih _ _ ⟨k, List.mem_append_left _ hk, hfp⟩

theorem FpIn_import_keys_of_mem (mat : List KeyRecord) :
    ∀ (st : List KeyRecord) (k : KeyRecord) (fp : String),
    k ∈ mat → k.fingerprint = fp → FpIn (import_keys st mat) fp := by
  induction mat with
  | nil =>
    intro st k fp hk _
    exact absurd hk (List.not_mem_nil k)
  | cons k0 rest ih =>
    intro st k fp hk hfp
    rw [show import_keys st (k0 :: rest) =
        import_keys (if st.any (fun k2 => k2.fingerprint = k0.fingerprint) then st
                     else st ++ [k0]) rest from rfl]
    rcases List.mem_cons.mp hk with h | h
    · subst h
      by_cases hany : st.any (fun k2 => k2.fingerprint = k.fingerprint) = true
      · rw [if_pos hany]
        obtain ⟨k2, hk2, hfpk2⟩ := List.any_eq_true.mp hany
        exact FpIn_import_keys_mono rest _ _ ⟨k2, hk2, by rw [of_decide_eq_true hfpk2, hfp]⟩
      · rw [if_neg hany]
        exact FpIn_import_keys_mono rest _ _
          ⟨k, List.mem_append_right _ (List.mem_singleton.mpr rfl), hfp⟩
    · exact ih _ k fp h hfp

theorem FpIn_load_keys_mono (tree : List (String × List KeyRecord)) :
    ∀ st fp, FpIn st fp → FpIn (load_keys st tree) fp := by
  induction tree with
  | nil =>
    intro st fp h
    exact h
  | cons file rest ih =>
    intro st fp h
    rw [show load_keys st (file :: rest) =
        load_keys (if file.1 = "KEYS" ∨ file.1 = "KEYS.txt" then import_keys st file.2
                   else st) rest from rfl]
    by_cases hname : file.1 = "KEYS" ∨ file.1 = "KEYS.txt"
    · rw [if_pos hname]
      exact ih _ _ (FpIn_import_keys_mono file.2 _ _ h)
    · rw [if_neg hname]
      exact ih _ _ h

theorem FpIn_load_keys_of_mem (tree : List (String × List KeyRecord)) :
    ∀ (st : List KeyRecord) (name : String) (mat : List KeyRecord) (k : KeyRecord)
      (fp : String),
    (name, mat) ∈ tree → (name = "KEYS" ∨ name = "KEYS.txt") → k ∈ mat →
    k.fingerprint = fp → FpIn (load_keys st tree) fp := by
  induction tree with
  | nil =>
    intro st name mat k fp hmem _ _ _
    exact absurd hmem (List.not_mem_nil _)
  | cons file rest ih =>
    intro st name mat k fp hmem hname hk hfp
    rw [show load_keys st (file :: rest) =
        load_keys (if file.1 = "KEYS" ∨ file.1 = "KEYS.txt" then import_keys st file.2
                   else st) rest from rfl]
    rcases List.mem_cons.mp hmem with h | h
    · subst h
      rw [if_pos hname]
      exact FpIn_load_keys_mono rest _ _ (FpIn_import_keys_of_mem mat _ k fp hk hfp)
    · exact ih _ name mat k fp h hname hk hfp

theorem known_fingerprints_isSome_iff {st : List KeyRecord} {fp : String} :
    (known_fingerprints st fp).isSome = true ↔ FpIn st fp := by
  simp [known_fingerprints, FpIn, List.find?_isSome]

/-! ### Claim theorems -/

/-- Claim C10: a file is selected for verification iff the substring after
its final `.` is in the configured extension allow-list; a filename with no
`.` gets the empty-string extension (so it is selected only when `""` is
allow-listed), and an allow-list entry containing a `.` (such as `tar.gz`)
never matches any filename, because the extracted extension never contains
a dot. -/
theorem c10_extension_selection (cfg : Config) (f e : String) :
    (selected cfg f = true ↔ fileExtension f ∈ cfg.known_extensions) ∧
    (f.toList.contains '.' = false → fileExtension f = "") ∧
    ('.' ∈ e.toList → fileExtension f ≠ e) := by
  refine ⟨?_, ?_, ?_⟩
  · simp [selected]
  · intro h
    unfold fileExtension
    rw [if_neg (by rw [h]; simp)]
  · intro hdot heq
    exact dot_not_mem_fileExtension f (heq ▸ hdot)

theorem c10_extension_selection_witness :
    ("README".toList.contains '.' = false) ∧ ('.' ∈ "tar.gz".toList) ∧
    fileExtension "README" = "" ∧ fileExtension "foo.tar.gz" ≠ "tar.gz" :=
  ⟨by decide, by decide,
   (c10_extension_selection ⟨["gz"], [], [], 0⟩ "README" "tar.gz").2.1 (by decide),
   (c10_extension_selection ⟨["gz"], [], [], 0⟩ "foo.tar.gz" "tar.gz").2.2 (by decide)⟩

/-- Claim C5: whenever the digest declared by the sidecar differs from the
computed digest — including the degenerate empty-declared case — the
Checksum Verifier returns exactly three ordered error lines: the mismatch
notice, a line ending in the computed value verbatim, and a line ending in
the declared value verbatim. -/
theorem c5_mismatch_report (filename method content computed : String)
    (h : checksum_on_disk content ≠ computed) :
    verify_checksum filename method content computed =
      [chkMismatchMsg (filename ++ "." ++ method),
       chkCalculatedMsg method filename computed,
       chkDeclaredMsg (filename ++ "." ++ method) (checksum_on_disk content)] ∧
    (∃ pre, chkCalculatedMsg method filename computed = pre ++ computed) ∧
    (∃ pre, chkDeclaredMsg (filename ++ "." ++ method) (checksum_on_disk content) =
      pre ++ checksum_on_disk content) := by
  refine ⟨?_, ⟨_, rfl⟩, ⟨_, rfl⟩⟩
  unfold verify_checksum
  rw [if_pos h]

theorem c5_mismatch_report_witness :
    checksum_on_disk "abc 123" ≠ "ffff" ∧
    (verify_checksum "a.tgz" "md5" "abc 123" "ffff" =
      [chkMismatchMsg ("a.tgz" ++ "." ++ "md5"),
       chkCalculatedMsg "md5" "a.tgz" "ffff",
       chkDeclaredMsg ("a.tgz" ++ "." ++ "md5") (checksum_on_disk "abc 123")] ∧
    (∃ pre, chkCalculatedMsg "md5" "a.tgz" "ffff" = pre ++ "ffff") ∧
    (∃ pre, chkDeclaredMsg ("a.tgz" ++ "." ++ "md5") (checksum_on_disk "abc 123") =
      pre ++ checksum_on_disk "abc 123")) :=
  ⟨by decide, c5_mismatch_report "a.tgz" "md5" "abc 123" "ffff" (by decide)⟩

/-- Claim C4 counterexample: on the sidecar text `"deadbeef\tfile.txt"` the
spec's split-on-whitespace reading extracts the expected digest
`"deadbeef"`, equal (case-insensitively, both already lower-case) to the
computed digest `"deadbeef"`, yet the code splits on the space character
only, extracts the empty digest, and returns the three-line mismatch
report instead of no errors. -/
theorem c4_split_cex :
    specExpectedDigest "deadbeef\tfile.txt" = "deadbeef" ∧
    pyLowerStr "deadbeef" = "deadbeef" ∧
    checksum_on_disk "deadbeef\tfile.txt" = "" ∧
    verify_checksum "a.tar.gz" "sha256" "deadbeef\tfile.txt" "deadbeef" =
      [chkMismatchMsg "a.tar.gz.sha256",
       chkCalculatedMsg "sha256" "a.tar.gz" "deadbeef",
       chkDeclaredMsg "a.tar.gz.sha256" ""] :=
  ⟨by decide, by decide, by decide, by decide⟩

/-- Claim C4 (amended): the verifier splits the sidecar text on space
characters (not on all whitespace) and strips each token; on sidecar texts
whose only whitespace is the space character this coincides with the
spec's split-on-whitespace description, and whenever the (lower-case)
computed digest equals that expected digest case-insensitively the
verifier returns no errors. -/
theorem c4_space_split_no_error (filename method content computed : String)
    (hws : ∀ c ∈ content.toList, pyWS c = true → c = ' ')
    (hlc : pyLowerStr computed = computed) :
    checksum_on_disk content = specExpectedDigest content ∧
    (pyLowerStr computed = specExpectedDigest content →
      verify_checksum filename method content computed = []) := by
  have heq := checksum_on_disk_eq_spec hws
  refine ⟨heq, ?_⟩
  intro hmatch
  have hcomp : checksum_on_disk content = computed := by
    rw [heq, ← hmatch, hlc]
  unfold verify_checksum
  rw [if_neg (by simp [hcomp])]

theorem c4_space_split_no_error_witness :
    (∀ c ∈ ("abc1 file.tar.gz" : String).toList, pyWS c = true → c = ' ') ∧
    pyLowerStr "abc1" = "abc1" ∧
    (checksum_on_disk "abc1 file.tar.gz" = specExpectedDigest "abc1 file.tar.gz" ∧
     (pyLowerStr "abc1" = specExpectedDigest "abc1 file.tar.gz" →
       verify_checksum "x.zip" "md5" "abc1 file.tar.gz" "abc1" = [])) :=
  ⟨by decide, by decide,
   c4_space_split_no_error "x.zip" "md5" "abc1 file.tar.gz" "abc1" (by decide) (by decide)⟩

/-- Claim C8: when the `.asc` sidecar does not exist, signature checking is
skipped entirely — the signature phase contributes no error and the
artifact's error list is exactly the checksum phase's, so the absence of a
signature sidecar never produces an error. -/
theorem c8_missing_asc_skipped (cfg : Config) (known : String → Option KeyRecord)
    (a : Artifact) (v : Nat) (ces : List String)
    (hasc : a.asc = none) (hchk : checksumPhase cfg a = some (v, ces)) :
    sigPhase known a = some [] ∧ verifyArtifact cfg known a = some (v, ces) := by
  have hsig : sigPhase known a = some [] := by
    unfold sigPhase
    rw [hasc]
  refine ⟨hsig, ?_⟩
  simp [verifyArtifact, hchk, hsig]

theorem c8_missing_asc_skipped_witness :
    sigPhase (fun _ => none)
      { filename := "a.gz", mtime := 5, sidecar := fun _ => none,
        digestOf := fun _ => "", asc := none } = some [] ∧
    verifyArtifact ⟨["gz"], ["sha256"], ["md5"], 0⟩ (fun _ => none)
      { filename := "a.gz", mtime := 5, sidecar := fun _ => none,
        digestOf := fun _ => "", asc := none } = some (0, [strongMsg "a.gz"]) :=
  c8_missing_asc_skipped ⟨["gz"], ["sha256"], ["md5"], 0⟩ (fun _ => none)
    { filename := "a.gz", mtime := 5, sidecar := fun _ => none,
      digestOf := fun _ => "", asc := none } 0 [strongMsg "a.gz"] rfl (by decide)

/-- Claim C7: for an artifact whose `.asc` sidecar exists and whose
signature verification reports invalid, an unknown reported fingerprint
yields exactly one not-in-KEYS error, and a known fingerprint whose
recorded expiry is earlier than the claimed signing timestamp yields
exactly one expiry error naming the signer identity (first uid) and the
fingerprint. -/
theorem c7_invalid_signature_errors (cfg : Config) (known : String → Option KeyRecord)
    (a : Artifact) (r : SigResult) (v : Nat) (ces : List String)
    (hasc : a.asc = some r) (hvalid : r.valid = false)
    (hchk : checksumPhase cfg a = some (v, ces)) :
    (known r.fingerprint = none →
      verifyArtifact cfg known a =
        some (v, ces ++ [sigNotInKeysMsg a.filename r.fingerprint])) ∧
    (∀ k owner rest, known r.fingerprint = some k → k.uids = owner :: rest →
      k.expires < r.sig_timestamp →
      verifyArtifact cfg known a =
        some (v, ces ++ [sigExpiredMsg a.filename owner r.fingerprint])) := by
  constructor
  · intro hk
    have hsig : sigPhase known a = some [sigNotInKeysMsg a.filename r.fingerprint] := by
      simp [sigPhase, hasc, hvalid, hk]
    simp [verifyArtifact, hchk, hsig]
  · intro k owner rest hk huids hexp
    have hsig : sigPhase known a = some [sigExpiredMsg a.filename owner r.fingerprint] := by
      simp [sigPhase, hasc, hvalid, hk, huids, hexp]
    simp [verifyArtifact, hchk, hsig]

theorem c7_invalid_signature_errors_witness :
    verifyArtifact ⟨["gz"], ["sha256"], ["md5"], 0⟩ (fun _ => none)
      { filename := "a.gz", mtime := 5,
        sidecar := fun m => if m = "sha256" then some "aa" else none,
        digestOf := fun _ => "aa",
        asc := some ⟨false, "ZZZ", 5, "bad signature"⟩ } =
      some (1, [] ++ [sigNotInKeysMsg "a.gz" "ZZZ"]) :=
  (c7_invalid_signature_errors ⟨["gz"], ["sha256"], ["md5"], 0⟩ (fun _ => none)
    { filename := "a.gz", mtime := 5,
      sidecar := fun m => if m = "sha256" then some "aa" else none,
      digestOf := fun _ => "aa",
      asc := some ⟨false, "ZZZ", 5, "bad signature"⟩ }
    ⟨false, "ZZZ", 5, "bad signature"⟩ 1 [] rfl rfl (by decide)).1 rfl

/-- Claim C6 counterexample: a key whose recorded expiry is 0 (the spec's
"non-expiring" marker) and an invalid signature with signing timestamp 100
do trigger the expired-at-signing error, because the code performs the
plain integer comparison `expires < sig_timestamp`, i.e. `0 < 100`. -/
theorem c6_zero_expiry_cex :
    sigPhase (fun fp => if fp = "F" then some ⟨"F", 0, ["Alice"]⟩ else none)
      { filename := "a.tar.gz", mtime := 5, sidecar := fun _ => none,
        digestOf := fun _ => "", asc := some ⟨false, "F", 100, "bad signature"⟩ } =
      some [sigExpiredMsg "a.tar.gz" "Alice" "F"] := by
  decide

/-- Claim C6 (amended): for a key with recorded expiry 0 and an invalid
signature whose fingerprint is known, the expired-at-signing error is
emitted exactly when the signature's claimed timestamp is positive; only
for timestamps at most 0 is it suppressed, in which case the phase emits
nothing or the verbatim-status error. -/
theorem c6_zero_expiry_behavior (known : String → Option KeyRecord) (a : Artifact)
    (r : SigResult) (k : KeyRecord) (owner : String) (rest : List String)
    (hasc : a.asc = some r) (hvalid : r.valid = false)
    (hk : known r.fingerprint = some k) (hexp : k.expires = 0)
    (huids : k.uids = owner :: rest) :
    (0 < r.sig_timestamp →
      sigPhase known a = some [sigExpiredMsg a.filename owner r.fingerprint]) ∧
    (r.sig_timestamp ≤ 0 →
      sigPhase known a =
        some (if r.status = "signature valid" then []
              else [sigStatusMsg a.filename r.status])) := by
  constructor
  · intro hts
    have hlt : k.expires < r.sig_timestamp := by omega
    simp [sigPhase, hasc, hvalid, hk, huids, hlt]
  · intro hts
    have hnot : ¬k.expires < r.sig_timestamp := by omega
    by_cases hst : r.status = "signature valid"
    · simp [sigPhase, hasc, hvalid, hk, hnot, hst]
    · simp [sigPhase, hasc, hvalid, hk, hnot, hst]

theorem c6_zero_expiry_behavior_witness :
    sigPhase (fun fp => if fp = "G" then some ⟨"G", 0, ["Bob"]⟩ else none)
      { filename := "b.zip", mtime := 5, sidecar := fun _ => none,
        digestOf := fun _ => "", asc := some ⟨false, "G", 77, "bad signature"⟩ } =
      some [sigExpiredMsg "b.zip" "Bob" "G"] :=
  (c6_zero_expiry_behavior (fun fp => if fp = "G" then some ⟨"G", 0, ["Bob"]⟩ else none)
    { filename := "b.zip", mtime := 5, sidecar := fun _ => none,
      digestOf := fun _ => "", asc := some ⟨false, "G", 77, "bad signature"⟩ }
    ⟨false, "G", 77, "bad signature"⟩ ⟨"G", 0, ["Bob"]⟩ "Bob" []
    rfl rfl rfl rfl rfl).1 (by decide)

/-- Claim C3 counterexample: with the cutoff set to 0, an artifact whose
modification time is 0 still satisfies `mtime <= deadline`, so the legacy
weak fallback path is taken and the artifact receives the weak-branch
message rather than the strong-checksum message. -/
theorem c3_deadline_zero_cex :
    verifyArtifact
      { known_extensions := ["gz"], strong_checksums := ["sha256", "sha512"],
        weak_checksums := ["md5", "sha1"], strong_checksum_deadline := 0 }
      (fun _ => none)
      { filename := "old.tar.gz", mtime := 0, sidecar := fun _ => none,
        digestOf := fun _ => "", asc := none } =
      some (0, [weakMsg "old.tar.gz"]) ∧
    weakMsg "old.tar.gz" ≠ strongMsg "old.tar.gz" :=
  ⟨by decide, by decide⟩

/-- Claim C3 (amended): if the configured cutoff is 0 (the value an absent
setting defaults to), the weak fallback is skipped for every artifact with
positive modification time: such an artifact with zero valid strong
checksums ends the checksum phase with the strong-checksum error appended
to the strong phase's errors.  (Artifacts with modification time at most 0
still take the fallback, as the counterexample shows.) -/
theorem c3_deadline_zero_strong_error (cfg : Config) (a : Artifact) (ces : List String)
    (hdl : cfg.strong_checksum_deadline = 0) (hmt : 0 < a.mtime)
    (hs : strongPhase cfg a = (0, ces)) :
    checksumPhase cfg a = some (0, ces ++ [strongMsg a.filename]) := by
  have hnofb : ¬((strongPhase cfg a).1 = 0 ∧ a.mtime ≤ cfg.strong_checksum_deadline) := by
    rw [hdl]
    rintro ⟨-, hle⟩
    omega
  unfold checksumPhase
  rw [if_neg hnofb, if_pos (show (strongPhase cfg a).1 = 0 by rw [hs]), hs]

theorem c3_deadline_zero_strong_error_witness :
    checksumPhase ⟨["gz"], ["sha256", "sha512"], ["md5", "sha1"], 0⟩
      { filename := "new.tar.gz", mtime := 5, sidecar := fun _ => none,
        digestOf := fun _ => "", asc := none } =
      some (0, [] ++ [strongMsg "new.tar.gz"]) :=
  c3_deadline_zero_strong_error ⟨["gz"], ["sha256", "sha512"], ["md5", "sha1"], 0⟩
    { filename := "new.tar.gz", mtime := 5, sidecar := fun _ => none,
      digestOf := fun _ => "", asc := none } [] rfl (by decide) (by decide)

/-- Claim C2: every artifact enumerated in a pass (allow-listed extension)
whose verification the pass completes ends with at least one valid
checksum recorded, or with an explicit no-valid-checksum error recorded
under its path in the report — no enumerated artifact is silently
skipped. -/
theorem c2_no_silent_skip (cfg : Config) (known : String → Option KeyRecord)
    (files : List (String × Artifact)) (rep : Report) (p : String) (a : Artifact)
    (hrun : verify_files cfg known files = some rep)
    (hmem : (p, a) ∈ files)
    (hsel : selected cfg a.filename = true) :
    ∃ v es, verifyArtifact cfg known a = some (v, es) ∧
      (1 ≤ v ∨ weakMsg a.filename ∈ lookupD rep p ∨ strongMsg a.filename ∈ lookupD rep p) := by
  unfold verify_files at hrun
  revert hrun hmem
  generalize [] = rep0
  revert rep0
  induction files with
  | nil =>
    intro rep0 h hm
    exact absurd hm (List.not_mem_nil _)
  | cons x xs ih =>
    obtain ⟨q, b⟩ := x
    intro rep0 h hm
    rw [verify_files_go] at h
    rcases List.mem_cons.mp hm with hhd | htl
    · rw [Prod.mk.injEq] at hhd
      obtain ⟨hp, hb⟩ := hhd
      subst hp
      subst hb
      rw [if_pos hsel] at h
      cases hva : verifyArtifact cfg known a with
      | none =>
        rw [hva] at h
        exact absurd h (by simp)
      | some st =>
        obtain ⟨v, es⟩ := st
        rw [hva] at h
        dsimp only at h
        refine ⟨v, es, rfl, ?_⟩
        by_cases hv : 1 ≤ v
        · exact Or.inl hv
        · have hv0 : v = 0 := by omega
          subst hv0
          have hmsg := verifyArtifact_zero_mem hva
          have hpush : ∀ m, m ∈ es → m ∈ lookupD rep p := by
            intro m hmmem
            have hne : ¬es = [] := List.ne_nil_of_mem hmmem
            rw [if_neg hne] at h
            apply mem_lookupD_go xs _ rep p m h
            unfold lookupD
            rw [lookupRep_push_self]
            exact List.mem_append_right _ hmmem
          rcases hmsg with hw | hsm
          · exact Or.inr (Or.inl (hpush _ hw))
          · exact Or.inr (Or.inr (hpush _ hsm))
    · by_cases hsel' : selected cfg b.filename = true
      · rw [if_pos hsel'] at h
        cases hva : verifyArtifact cfg known b with
        | none =>
          rw [hva] at h
          exact absurd h (by simp)
        | some st =>
          rw [hva] at h
          exact ih _ h htl
      · rw [if_neg hsel'] at h
        exact ih _ h htl

theorem c2_no_silent_skip_witness :
    verify_files ⟨["gz"], ["sha256"], ["md5"], 0⟩ (fun _ => none)
      [("dist/p/a.gz",
        { filename := "a.gz", mtime := 5, sidecar := fun _ => none,
          digestOf := fun _ => "", asc := none })] =
      some [("dist/p/a.gz", [strongMsg "a.gz"])] ∧
    (∃ v es,
      verifyArtifact ⟨["gz"], ["sha256"], ["md5"], 0⟩ (fun _ => none)
        { filename := "a.gz", mtime := 5, sidecar := fun _ => none,
          digestOf := fun _ => "", asc := none } = some (v, es) ∧
      (1 ≤ v ∨
        weakMsg "a.gz" ∈ lookupD [("dist/p/a.gz", [strongMsg "a.gz"])] "dist/p/a.gz" ∨
        strongMsg "a.gz" ∈ lookupD [("dist/p/a.gz", [strongMsg "a.gz"])] "dist/p/a.gz")) :=
  ⟨by decide,
   c2_no_silent_skip ⟨["gz"], ["sha256"], ["md5"], 0⟩ (fun _ => none)
     [("dist/p/a.gz",
       { filename := "a.gz", mtime := 5, sidecar := fun _ => none,
         digestOf := fun _ => "", asc := none })]
     [("dist/p/a.gz", [strongMsg "a.gz"])] "dist/p/a.gz"
     { filename := "a.gz", mtime := 5, sidecar := fun _ => none,
       digestOf := fun _ => "", asc := none }
     (by decide) (List.mem_singleton.mpr rfl) (by decide)⟩

/-- Claim C1: contrary to the claim, only the last algorithm of the
configured weak list is ever checked in the legacy fallback — the
existence test sits outside the weak loop, whose body only rebinds the
sidecar name.  Concretely: an artifact older than the cutoff carrying a
valid, matching `md5` sidecar (md5 is in the weak list, and
`verify_checksum` on it returns no errors) but no `sha1` sidecar ends the
pass with the "No valid checksum files" error instead of zero errors. -/
theorem c1_weak_loop_skips_md5 :
    verify_files
      { known_extensions := ["gz"], strong_checksums := ["sha256", "sha512"],
        weak_checksums := ["md5", "sha1"], strong_checksum_deadline := 100 }
      (fun _ => none)
      [("dist/proj/a.tar.gz",
        { filename := "a.tar.gz", mtime := 50,
          sidecar := fun m => if m = "md5" then some "abc123" else none,
          digestOf := fun m => if m = "md5" then "abc123" else "ffff",
          asc := none })] =
      some [("dist/proj/a.tar.gz", [weakMsg "a.tar.gz"])] ∧
    verify_checksum "a.tar.gz" "md5" "abc123" "abc123" = [] ∧
    lastMethodAfterWeak
      { known_extensions := ["gz"], strong_checksums := ["sha256", "sha512"],
        weak_checksums := ["md5", "sha1"], strong_checksum_deadline := 100 } =
      some "sha1" :=
  ⟨by decide, by decide, by decide⟩

/-- Claim C9 counterexample: the per-project GPG home directory persists
across passes, so a key imported from a KEYS file during pass 1 is still
in the fingerprint map of pass 2 even though pass 2's tree has no KEYS
file at all; loading pass 2's tree alone would yield no such entry. -/
theorem c9_persistence_cex :
    known_fingerprints
      (load_keys (load_keys [] [("KEYS", [⟨"FPR1", 0, ["Alice"]⟩])]) [("README", [])])
      "FPR1" = some ⟨"FPR1", 0, ["Alice"]⟩ ∧
    known_fingerprints (load_keys [] [("README", [])]) "FPR1" = none :=
  ⟨by decide, by decide⟩

/-- Claim C9 (amended): the fingerprint map for a pass is built from the
persistent per-project GPG store, which `load_keys` only ever extends: any
fingerprint already in the store when the pass starts — in particular one
imported from a KEYS file of an earlier pass that has since disappeared —
is still present after the pass's load, alongside every key of every
`KEYS`/`KEYS.txt` file of the current tree. -/
theorem c9_store_accumulates (st : List KeyRecord) (tree : List (String × List KeyRecord))
    (fp : String) :
    ((known_fingerprints st fp).isSome = true →
      (known_fingerprints (load_keys st tree) fp).isSome = true) ∧
    (∀ name mat k, (name, mat) ∈ tree → (name = "KEYS" ∨ name = "KEYS.txt") →
      k ∈ mat → k.fingerprint = fp →
      (known_fingerprints (load_keys st tree) fp).isSome = true) := by
  constructor
  · intro h
    exact known_fingerprints_isSome_iff.mpr
      (FpIn_load_keys_mono tree st fp (known_fingerprints_isSome_iff.mp h))
  · intro name mat k hmem hname hk hfp
    exact known_fingerprints_isSome_iff.mpr
      (FpIn_load_keys_of_mem tree st name mat k fp hmem hname hk hfp)

theorem c9_store_accumulates_witness :
    (known_fingerprints (load_keys [⟨"FPR1", 0, ["Alice"]⟩] [("README", [])])
      "FPR1").isSome = true :=
  (c9_store_accumulates [⟨"FPR1", 0, ["Alice"]⟩] [("README", [])] "FPR1").1 (by decide)

end Checker

